import Mathlib

/-!
Verification of the monsmain/endpoint-scanner core.

The repository is a family of Go programs that probe (address, port, protocol)
candidates against a fixed set of anycast subnets, aggregate the successful
probes per protocol, and rank them by latency.  This file gives a shallow
embedding of the parts of the code that the specification talks about:

- the candidate generators (scan.go generateIPv4Addresses, and the
  deduplicating variant of the worker-pool program in src/unnamed/part_002);
- the probe executors (scan.go scanPort, src/unnamed/part_001 probeEndpoint,
  src/unnamed/part_002 worker), with the network modelled as an oracle that
  says whether each network operation succeeds and how long it takes;
- the aggregation loop that partitions received results by protocol;
- the ranking step, where the call to Go sort.Slice is modelled by its
  documented contract (a permutation of the input ordered according to the
  less function; the Go documentation states the sort is not guaranteed to
  be stable);
- a small-step transition system for the fan-out / WaitGroup / guard
  semaphore / buffered channel structure of the main functions, used for the
  concurrency claims.

Durations are modelled as natural numbers of nanoseconds (Go time.Duration
is an integer nanosecond count, and every duration occurring here is
nonnegative).
-/

set_option maxHeartbeats 1000000

/-- Go time.Duration, in nanoseconds. -/
abbrev DurationNs := Nat

/-- EndpointResult, as in scan.go lines 21-25 (the part_001 variant names the
latency field Ping; the shape is the same). -/
structure EndpointResult where
  Endpoint : String
  Latency : DurationNs
  Protocol : String
deriving DecidableEq, Repr

/-- net.JoinHostPort: joins host and port with a colon, bracketing the host
when it contains a colon (IPv6 literals).  The test is written over the
character list of the host so that it evaluates inside the kernel. -/
def joinHostPort (host : String) (port : Nat) : String :=
  if host.data.contains ':' then "[" ++ host ++ "]:" ++ Nat.repr port
  else host ++ ":" ++ Nat.repr port

/-- One (address, port, protocol) candidate triple. -/
structure Candidate where
  ip : String
  port : Nat
  protocol : String
deriving DecidableEq, Repr

namespace ScanGo

/-- The subnet prefixes of scan.go lines 29-32. -/
def subnets : List String :=
  ["162.159.192.", "162.159.193.", "162.159.195.",
   "188.114.96.", "188.114.97.", "188.114.98.", "188.114.99."]

/-- generateIPv4Addresses, scan.go lines 27-39: for each subnet prefix, five
addresses whose last octet comes from rand.Intn(256).  The random source is
modelled as an oracle giving the value of the k-th call to rand.Intn(256)
made by this invocation. -/
def generateIPv4Addresses (rnd : Nat → Fin 256) : List String :=
  subnets.enum.flatMap fun si =>
    (List.range 5).map fun i => si.2 ++ Nat.repr (rnd (5 * si.1 + i)).val

/-- portsToScan, scan.go line 148. -/
def portsToScan : List Nat :=
  [443, 2408, 500, 1701, 4500, 8886, 908, 8854, 878, 4198, 955, 988, 3854,
   894, 7156, 1074, 2371, 939, 864, 854, 1070, 3476, 1387, 7559, 890, 1018]

/-- scanLimit, scan.go lines 152-155: 30, lowered to len(bestIPs) when fewer
responsive addresses were found. -/
def scanLimit (nBest : Nat) : Nat := if nBest < 30 then nBest else 30

/-- Capacity of endpointResultsChan, scan.go line 150. -/
def chanCap (nBest : Nat) : Nat := nBest * portsToScan.length * 2

/-- Number of scanPort goroutines spawned by the loops of scan.go lines
157-163: one tcp and one udp probe per (address, port) pair over the first
scanLimit addresses. -/
def spawnCount (nBest : Nat) : Nat := scanLimit nBest * portsToScan.length * 2

/-- The candidate triples probed by scan.go lines 157-163, as a function of
the responsive addresses found in step 1. -/
def scanCandidates (bestIPs : List String) : List Candidate :=
  (bestIPs.take 30).flatMap fun ip =>
    portsToScan.flatMap fun port =>
      [⟨ip, port, "tcp"⟩, ⟨ip, port, "udp"⟩]

end ScanGo

namespace Pool2

/-- generateIPv4Addresses of the worker-pool program, src/unnamed/part_002
lines 187-209: fifty random addresses per subnet, then duplicates removed by
the ipMap loop, which keeps the first occurrence of each address.  The seen
map is represented by the list of addresses already kept. -/
def generateIPv4Addresses (rnd : Nat → Fin 256) : List String :=
  let ips := ScanGo.subnets.enum.flatMap fun si =>
    (List.range 50).map fun i => si.2 ++ Nat.repr (rnd (50 * si.1 + i)).val
  ips.foldl (fun acc ip => if ip ∈ acc then acc else acc ++ [ip]) []

end Pool2

/-! ## Ranking (claim C2)

scan.go lines 187-233 rank each protocol collection with
sort.Slice(results, fun i j => results[i].Latency < results[j].Latency).
sort.Slice is a library call; its documented contract is that it reorders
the slice into a permutation that is sorted according to the less function,
and that the sort is not guaranteed to be stable (equal elements may be
reversed from their original order).  sortSliceOk relates an input slice to
the outputs the contract allows. -/

/-- The less closure passed to sort.Slice in scan.go lines 189-191 and
213-215: strict comparison of latencies. -/
def endpointLess (a b : EndpointResult) : Bool := a.Latency < b.Latency

/-- Documented contract of sort.Slice: output is a permutation of input that
is sorted according to less, in the sense that no earlier element compares
strictly greater than a later one.  Stability is not part of the contract. -/
def sortSliceOk (less : EndpointResult → EndpointResult → Bool)
    (input output : List EndpointResult) : Prop :=
  output.Perm input ∧ output.Pairwise (fun a b => less b a = false)

instance (less : EndpointResult → EndpointResult → Bool)
    (input output : List EndpointResult) :
    Decidable (sortSliceOk less input output) := by
  unfold sortSliceOk; infer_instance

/-! ## Aggregation (claim C10)

scan.go lines 171-177: the main goroutine drains the results channel and
appends each received result to the tcp collection when its Protocol field
is "tcp" and to the udp collection otherwise. -/

/-- The aggregation loop of scan.go lines 171-177, as a left fold over the
sequence of received results. -/
def foldResults (received : List EndpointResult) :
    List EndpointResult × List EndpointResult :=
  received.foldl
    (fun acc r =>
      if r.Protocol = "tcp" then (acc.1 ++ [r], acc.2) else (acc.1, acc.2 ++ [r]))
    ([], [])

/-! ## Best-of view (claim C8)

scan.go lines 188-233 (and src/unnamed/part_001 lines 116-134) only read
results[0] under a guard len(results) > 0, and print a none-found message
otherwise.  bestEndpoint is that guarded access, with the none-found branch
represented by none. -/

/-- Guarded first-element access of the ranked collections. -/
def bestEndpoint (results : List EndpointResult) : Option EndpointResult :=
  if 0 < results.length then results.head? else none

/-! ## Probe executors (claims C1, C6, C7)

The network is modelled by an oracle recording, for one probe attempt,
whether each network operation succeeds and how long it takes. -/

/-- Outcome oracle for the network operations of one probe attempt.
dialOk is whether net.DialTimeout returns without error (within the
timeout); dialDur is the elapsed time of the dial.  writeOk and readOk are
whether the UDP handshake write and the one-byte response read succeed
before their deadlines; writeDur and readDur are their elapsed times. -/
structure NetEnv where
  dialOk : Bool
  dialDur : DurationNs
  writeOk : Bool
  writeDur : DurationNs
  readOk : Bool
  readDur : DurationNs
deriving DecidableEq, Repr

/-- Instant, counting from the probe start, at which the handshake write
begins: the dial runs first. -/
def writeStart (env : NetEnv) : Nat := env.dialDur

/-- Instant at which the handshake response read completes. -/
def readEnd (env : NetEnv) : Nat := env.dialDur + env.writeDur + env.readDur

/-- Span from just before the handshake write to just after the response
read completes. -/
def handshakeSpan (env : NetEnv) : Nat := readEnd env - writeStart env

namespace ScanGo

/-- scanPort, scan.go lines 85-97: start := time.Now(); DialTimeout;
latency := time.Since(start); on a successful dial the result is sent, for
tcp and udp alike.  No handshake write or read is performed: the udp branch
is identical to the tcp branch. -/
def scanPort (env : NetEnv) (ip : String) (port : Nat) (protocol : String) :
    Option EndpointResult :=
  if env.dialOk then
    some ⟨joinHostPort ip port, env.dialDur, protocol⟩
  else none

end ScanGo

namespace Probe1

/-- The fixed 16-byte handshake payload of src/unnamed/part_001 line 46. -/
def handshakePacket : List Nat := [1, 0, 0, 0, 0, 0, 0, 0, 0, 0, 0, 0, 0, 0, 0, 0]

/-- probeEndpoint, src/unnamed/part_001 lines 32-60: dial with a timeout;
ping := time.Since(start) immediately after the dial; for udp, write the
handshake packet and read one byte under a read deadline, returning without
sending on any error; finally send the result carrying ping. -/
def probeEndpoint (env : NetEnv) (ip protocol : String) (port : Nat) :
    Option EndpointResult :=
  if env.dialOk then
    let ping := env.dialDur
    if protocol = "udp" then
      if env.writeOk then
        if env.readOk then some ⟨joinHostPort ip port, ping, protocol⟩
        else none
      else none
    else some ⟨joinHostPort ip port, ping, protocol⟩
  else none

end Probe1

namespace Pool2

/-- ScanJob, src/unnamed/part_002 lines 157-162. -/
structure ScanJob where
  IP : String
  Port : Nat
  Protocol : String
  Timeout : DurationNs
deriving DecidableEq, Repr

/-- worker, src/unnamed/part_002 lines 172-185: range over the received
jobs in order; dial each; on success send the result; on failure produce
nothing and continue with the next job.  The jobs argument is the sequence
of jobs this worker receives from the jobs channel, and the oracle gives the
network outcome of each job. -/
def worker (net : ScanJob → NetEnv) : List ScanJob → List EndpointResult
  | [] => []
  | j :: rest =>
    if (net j).dialOk then
      ⟨joinHostPort j.IP j.Port, (net j).dialDur, j.Protocol⟩ :: worker net rest
    else worker net rest

end Pool2

/-! ## The fan-out / join structure (claims C4, C5, C9)

The main functions of scan.go (lines 149-177) and of src/unnamed/part_001
(lines 73-105) share one structure: the main goroutine spawns one probe
goroutine per candidate, optionally acquiring a slot on a guard channel of
capacity concurrencyLimit before each spawn; every probe sends its outcome
(successes only) on a buffered results channel and then calls wg.Done; in
part_001 the spawned goroutine then releases its guard slot; main calls
wg.Wait, closes the channel, drains it into the protocol collections, and
only then ranks.  The transition system below models exactly this
structure, one interleaving step at a time.  Main acquiring a guard slot
and starting the goroutine are merged into the single spawn step, which is
sound for the bounds proved here because the real code acquires the slot
strictly before the goroutine starts. -/

namespace Pool

/-- Phase of one spawned probe goroutine.  running: the probe body is
executing its network operations.  sending r: the probe succeeded with
outcome r and the send on the results channel is pending.  finishing: the
probe body is past its send (or failed and sends nothing) and wg.Done is
pending (wg.Done is the last deferred call of the probe body).  releasing:
the probe body returned and the wrapper is about to take back its guard
slot.  done: the goroutine exited. -/
inductive ProcPhase where
  | running
  | sending (r : EndpointResult)
  | finishing
  | releasing
  | done
deriving DecidableEq, Repr

/-- Phase of the main goroutine: spawning the probe goroutines, blocked in
wg.Wait, draining the closed results channel, or ranking (everything after
the drain loop). -/
inductive MainPhase where
  | spawning
  | waiting
  | draining
  | ranking
deriving DecidableEq, Repr

/-- Static data of one run: the candidate sequence, the network oracle
(some r when the probe of the candidate succeeds with outcome r, none when
it fails or times out), the capacity of the buffered results channel, and
the capacity of the guard channel (none when the program has no guard,
as in scan.go). -/
structure Config where
  cands : List Candidate
  net : Candidate → Option EndpointResult
  cap : Nat
  guard : Option Nat

/-- Dynamic state of a run. -/
structure PoolState where
  toSpawn : List Candidate
  procs : List (Candidate × ProcPhase)
  wg : Nat
  guardUsed : Nat
  buffer : List EndpointResult
  results : List EndpointResult
  phase : MainPhase
deriving Repr

/-- Initial state: nothing spawned, channel empty, main about to spawn. -/
def init (cfg : Config) : PoolState :=
  ⟨cfg.cands, [], 0, 0, [], [], MainPhase.spawning⟩

/-- Phase a probe goroutine enters when its network operations complete:
on success the send of the outcome is pending, on failure nothing is sent
and only wg.Done remains. -/
def finishPhase (cfg : Config) (c : Candidate) : ProcPhase :=
  match cfg.net c with
  | some r => ProcPhase.sending r
  | none => ProcPhase.finishing

/-- One interleaving step of the run. -/
inductive Step (cfg : Config) : PoolState → PoolState → Prop where
  | spawn (s : PoolState) (c : Candidate) (rest : List Candidate) :
      s.phase = MainPhase.spawning → s.toSpawn = c :: rest →
      (∀ L, cfg.guard = some L → s.guardUsed < L) →
      Step cfg s { s with
                   toSpawn := rest
                   wg := s.wg + 1
                   guardUsed := s.guardUsed + 1
                   procs := s.procs ++ [(c, ProcPhase.running)] }
  | finish (s : PoolState) (i : Nat) (c : Candidate) :
      s.procs[i]? = some (c, ProcPhase.running) →
      Step cfg s { s with procs := s.procs.set i (c, finishPhase cfg c) }
  | send (s : PoolState) (i : Nat) (c : Candidate) (r : EndpointResult) :
      s.procs[i]? = some (c, ProcPhase.sending r) →
      s.buffer.length < cfg.cap →
      Step cfg s { s with
                   buffer := s.buffer ++ [r]
                   procs := s.procs.set i (c, ProcPhase.finishing) }
  | wgDone (s : PoolState) (i : Nat) (c : Candidate) :
      s.procs[i]? = some (c, ProcPhase.finishing) →
      Step cfg s { s with
                   wg := s.wg - 1
                   procs := s.procs.set i (c, ProcPhase.releasing) }
  | release (s : PoolState) (i : Nat) (c : Candidate) :
      s.procs[i]? = some (c, ProcPhase.releasing) →
      Step cfg s { s with
                   guardUsed := s.guardUsed - 1
                   procs := s.procs.set i (c, ProcPhase.done) }
  | wait (s : PoolState) :
      s.phase = MainPhase.spawning → s.toSpawn = [] →
      Step cfg s { s with phase := MainPhase.waiting }
  | closeChan (s : PoolState) :
      s.phase = MainPhase.waiting → s.wg = 0 →
      Step cfg s { s with phase := MainPhase.draining }
  | drain (s : PoolState) (r : EndpointResult) (rest : List EndpointResult) :
      s.phase = MainPhase.draining → s.buffer = r :: rest →
      Step cfg s { s with
                   buffer := rest
                   results := s.results ++ [r] }
  | drainDone (s : PoolState) :
      s.phase = MainPhase.draining → s.buffer = [] →
      Step cfg s { s with phase := MainPhase.ranking }

/-- States reachable in a run. -/
def Reachable (cfg : Config) (s : PoolState) : Prop :=
  Relation.ReflTransGen (Step cfg) (init cfg) s

/-- True of the phases during which the probe body is still executing
(its wg.Done has not run yet). -/
def inProbe : ProcPhase → Bool
  | ProcPhase.running => true
  | ProcPhase.sending _ => true
  | ProcPhase.finishing => true
  | _ => false

/-- True of the phases during which the goroutine still holds its guard
slot. -/
def holdsSlot : ProcPhase → Bool
  | ProcPhase.done => false
  | _ => true

/-- Outcomes a probe goroutine still owes to the results channel: a probe
that has not run its network operations owes whatever the oracle will give
it; a successful probe that has not sent yet owes its outcome; everything
else owes nothing. -/
def phaseOutcomes (cfg : Config) : Candidate × ProcPhase → List EndpointResult
  | (c, ProcPhase.running) => (cfg.net c).toList
  | (_, ProcPhase.sending r) => [r]
  | _ => []

/-- All successful outcomes the oracle grants over a candidate list. -/
def allOutcomes (cfg : Config) (l : List Candidate) : List EndpointResult :=
  l.flatMap fun c => (cfg.net c).toList

/-- The successful outcomes of the run accounted at a state, as a multiset:
outcomes already folded into the protocol collections, outcomes queued in
the channel buffer, outcomes owed by spawned probes, and outcomes of
candidates not yet spawned. -/
def stateOutcomes (cfg : Config) (s : PoolState) : Multiset EndpointResult :=
  (↑s.results : Multiset EndpointResult) + ↑s.buffer
    + ↑(s.procs.flatMap (phaseOutcomes cfg)) + ↑(allOutcomes cfg s.toSpawn)

/-- The inductive invariant of the run. -/
structure Inv (cfg : Config) (s : PoolState) : Prop where
  wg_eq : s.wg = s.procs.countP (fun p => inProbe p.2)
  guard_eq : s.guardUsed = s.procs.countP (fun p => holdsSlot p.2)
  guard_le : ∀ L, cfg.guard = some L → s.guardUsed ≤ L
  spawned : s.procs.map Prod.fst ++ s.toSpawn = cfg.cands
  outcomes : stateOutcomes cfg s = ↑(allOutcomes cfg cfg.cands)
  sending_net : ∀ (i : Nat) (c : Candidate) (r : EndpointResult),
    s.procs[i]? = some (c, ProcPhase.sending r) → cfg.net c = some r
  no_spawn_late : s.phase ≠ MainPhase.spawning → s.toSpawn = []
  wg_zero_late :
    s.phase = MainPhase.draining ∨ s.phase = MainPhase.ranking → s.wg = 0
  buffer_empty_rank : s.phase = MainPhase.ranking → s.buffer = []

end Pool

namespace Pool

/-- Remaining work of one probe goroutine, used for termination. -/
def phaseWeight : ProcPhase → Nat
  | ProcPhase.running => 5
  | ProcPhase.sending _ => 4
  | ProcPhase.finishing => 2
  | ProcPhase.releasing => 1
  | ProcPhase.done => 0

/-- Remaining work of the main goroutine, used for termination. -/
def mainWeight : MainPhase → Nat
  | MainPhase.spawning => 3
  | MainPhase.waiting => 2
  | MainPhase.draining => 1
  | MainPhase.ranking => 0

/-- Strictly decreasing measure of a run: every step lowers it, so no run
of the pool takes infinitely many steps. -/
def poolMeasure (s : PoolState) : Nat :=
  7 * s.toSpawn.length + (s.procs.map (fun p => phaseWeight p.2)).sum
    + s.buffer.length + mainWeight s.phase

end Pool

/-! ## Concrete data for counterexamples and witnesses. -/

/-- Random oracle that always returns 0; realisable, since rand.Intn(256)
can return the same value on consecutive calls. -/
def rndZero : Nat → Fin 256 := fun _ => ⟨0, by decide⟩

/-- A network environment in which the dial succeeds in 5ms but the UDP
handshake write takes 2ms and the response read 43ms. -/
def envSlowHandshake : NetEnv :=
  ⟨true, 5000000, true, 2000000, true, 43000000⟩

/-- A network environment in which the udp dial succeeds instantly (3ms)
but the remote end never answers the handshake: the read times out (and
the write is also taken to fail, covering both failure modes). -/
def envDeadRemote : NetEnv :=
  ⟨true, 3000000, false, 0, false, 0⟩

/-- Two distinct successful outcomes with equal latency, in discovery
order rTieFirst before rTieSecond. -/
def rTieFirst : EndpointResult := ⟨"162.159.192.1:443", 10000000, "tcp"⟩

/-- See rTieFirst. -/
def rTieSecond : EndpointResult := ⟨"162.159.193.7:443", 10000000, "tcp"⟩

/-- Outcome with latency 30ms, for the ranking scenario of the spec. -/
def rLat30 : EndpointResult := ⟨"188.114.96.5:443", 30000000, "tcp"⟩

/-- Outcome with latency 50ms, for the ranking scenario of the spec. -/
def rLat50 : EndpointResult := ⟨"188.114.97.9:443", 50000000, "tcp"⟩

/-- A tcp success and a udp success used in aggregation witnesses. -/
def rUdp : EndpointResult := ⟨"162.159.195.2:2408", 7000000, "udp"⟩

/-- One concrete candidate. -/
def cand0 : Candidate := ⟨"162.159.192.1", 2408, "udp"⟩

namespace Pool

/-- Run configuration with no candidates, used as a witness. -/
def cfgEmpty : Config := ⟨[], fun _ => none, 0, none⟩

/-- Run configuration with one candidate whose probe succeeds, buffer
capacity 1, no guard (the scan.go shape). -/
def cfgOne : Config := ⟨[cand0], fun _ => some rUdp, 1, none⟩

/-- Run configuration with one candidate and a guard channel of capacity
one (the part_001 shape). -/
def cfgGuard : Config := ⟨[cand0], fun _ => some rUdp, 1, some 1⟩

/-- The state of cfgEmpty after the main goroutine passes wait, closes the
channel and exits the drain loop: the run is complete and ranking begins. -/
def emptyRankState : PoolState :=
  ⟨[], [], 0, 0, [], [], MainPhase.ranking⟩

/-- The state of cfgGuard just after its only probe is spawned. -/
def guardRunState : PoolState :=
  ⟨[], [(cand0, ProcPhase.running)], 1, 1, [], [], MainPhase.spawning⟩

/-- The state of cfgOne after its probe finished its network operations:
the send of rUdp is pending. -/
def oneSendingState : PoolState :=
  ⟨[], [(cand0, ProcPhase.sending rUdp)], 1, 1, [], [], MainPhase.spawning⟩

end Pool

/-- A job whose dial succeeds, for worker witnesses. -/
def jobGood : Pool2.ScanJob := ⟨"188.114.98.224", 8886, "tcp", 7000000000⟩

/-- A job whose dial fails, for worker witnesses. -/
def jobBad : Pool2.ScanJob := ⟨"188.114.99.17", 8886, "tcp", 7000000000⟩

/-- Network oracle for worker witnesses: jobGood dials in 4ms, every other
job fails to dial. -/
def netTwoJobs (j : Pool2.ScanJob) : NetEnv :=
  if j = jobGood then ⟨true, 4000000, false, 0, false, 0⟩
  else ⟨false, 0, false, 0, false, 0⟩

/-! ## Helper lemmas -/

/-- The ipMap dedup loop of part_002 keeps its accumulator duplicate-free. -/
theorem dedupFold_nodup (l : List String) (acc : List String)
    (h : acc.Nodup) :
    (l.foldl (fun acc ip => if ip ∈ acc then acc else acc ++ [ip]) acc).Nodup := by
  induction l generalizing acc with
  | nil => simpa using h
  | cons ip rest ih =>
    simp only [List.foldl_cons]
    by_cases hm : ip ∈ acc
    · simpa [hm] using ih acc h
    · refine ih _ ?_
      simp [List.nodup_append, h, hm]

/-- Unfolding of the aggregation fold with an arbitrary accumulator. -/
theorem foldResults_go (l : List EndpointResult) (t u : List EndpointResult) :
    l.foldl
      (fun acc r =>
        if r.Protocol = "tcp" then (acc.1 ++ [r], acc.2) else (acc.1, acc.2 ++ [r]))
      (t, u)
      = (t ++ l.filter (fun r => decide (r.Protocol = "tcp")),
         u ++ l.filter (fun r => ! decide (r.Protocol = "tcp"))) := by
  induction l generalizing t u with
  | nil => simp
  | cons r rest ih =>
    rw [List.foldl_cons]
    by_cases h : r.Protocol = "tcp"
    · rw [if_pos h, ih]
      simp [List.filter_cons, h]
    · rw [if_neg h, ih]
      simp [List.filter_cons, h]

/-- The aggregation loop is the pair of protocol filters. -/
theorem foldResults_eq_filter (l : List EndpointResult) :
    foldResults l
      = (l.filter (fun r => decide (r.Protocol = "tcp")),
         l.filter (fun r => ! decide (r.Protocol = "tcp"))) := by
  simpa using foldResults_go l [] []

/-- A failed job inside the stream contributes nothing and does not stop
the worker from processing the rest of its jobs. -/
theorem worker_split (net : Pool2.ScanJob → NetEnv) (pre post : List Pool2.ScanJob)
    (j : Pool2.ScanJob) (hfail : (net j).dialOk = false) :
    Pool2.worker net (pre ++ j :: post)
      = Pool2.worker net pre ++ Pool2.worker net post := by
  induction pre with
  | nil => simp [Pool2.worker, hfail]
  | cons a pre ih =>
    by_cases ha : (net a).dialOk <;> simp [Pool2.worker, ha, ih]

/-- Every result a worker emits comes from a job it received whose dial
succeeded, and carries that job's address and dial latency. -/
theorem worker_sound (net : Pool2.ScanJob → NetEnv) (jobs : List Pool2.ScanJob) :
    ∀ r ∈ Pool2.worker net jobs, ∃ j ∈ jobs, (net j).dialOk = true ∧
      r = ⟨joinHostPort j.IP j.Port, (net j).dialDur, j.Protocol⟩ := by
  induction jobs with
  | nil => intro r hr; simp [Pool2.worker] at hr
  | cons a jobs ih =>
    intro r hr
    by_cases ha : (net a).dialOk
    · rw [Pool2.worker, if_pos ha] at hr
      rcases List.mem_cons.mp hr with h | h
      · exact ⟨a, List.mem_cons_self a jobs, ha, h⟩
      · obtain ⟨j, hj, hjo, hje⟩ := ih r h
        exact ⟨j, List.mem_cons_of_mem a hj, hjo, hje⟩
    · rw [Pool2.worker, if_neg ha] at hr
      obtain ⟨j, hj, hjo, hje⟩ := ih r hr
      exact ⟨j, List.mem_cons_of_mem a hj, hjo, hje⟩

/-- A udp probe whose handshake write or read fails produces no outcome. -/
theorem probeEndpoint_handshake_fail (env : NetEnv) (ip : String) (port : Nat)
    (h : env.writeOk = false ∨ env.readOk = false) :
    Probe1.probeEndpoint env ip "udp" port = none := by
  unfold Probe1.probeEndpoint
  rcases h with h | h <;>
    by_cases hd : env.dialOk <;>
      by_cases hw : env.writeOk <;>
        by_cases hr : env.readOk <;>
          simp_all

/-! ## Claim theorems (functional claims) -/

/-- C1: counterexample evidence in the code.  scan.go scanPort records a
udp success on a bare successful dial although the remote end never answers
a handshake (and no handshake is even attempted), while the handshake-aware
executor probeEndpoint of part_001 rejects the same candidate under the
same network conditions. -/
theorem C1_scanPort_udp_success_without_handshake :
    ScanGo.scanPort envDeadRemote "162.159.192.1" 2408 "udp"
      = some ⟨"162.159.192.1:2408", 3000000, "udp"⟩ ∧
    Probe1.probeEndpoint envDeadRemote "162.159.192.1" "udp" 2408 = none := by
  decide

/-- C3: counterexample.  With a random source that repeats the value 0,
which rand.Intn(256) can do, the scan.go generator emits the address
162.159.192.0 five times, so a generated sequence is not duplicate-free. -/
theorem C3_counterexample :
    ¬ (ScanGo.generateIPv4Addresses rndZero).Nodup ∧
    (ScanGo.generateIPv4Addresses rndZero).count "162.159.192.0" = 5 := by
  decide

/-- C3 (amended): the deduplicating generator of part_002 never emits the
same address twice, whatever the random source returns. -/
theorem C3_part2_generator_nodup (rnd : Nat → Fin 256) :
    (Pool2.generateIPv4Addresses rnd).Nodup := by
  unfold Pool2.generateIPv4Addresses
  exact dedupFold_nodup _ _ List.nodup_nil

/-- C3 (amended) witnessed at the constant random source. -/
theorem C3_part2_generator_nodup_witness :
    (Pool2.generateIPv4Addresses rndZero).Nodup :=
  C3_part2_generator_nodup rndZero

/-- C6: a candidate whose probe fails contributes nothing to the results
and does not abort the run; every forwarded result comes from a successful
probe; and a udp probe whose handshake write or read fails (part_001)
likewise produces no outcome. -/
theorem C6_probe_failure_never_aborts (net : Pool2.ScanJob → NetEnv)
    (pre post : List Pool2.ScanJob) (j : Pool2.ScanJob)
    (hfail : (net j).dialOk = false) :
    Pool2.worker net (pre ++ j :: post)
      = Pool2.worker net pre ++ Pool2.worker net post ∧
    (∀ jobs : List Pool2.ScanJob, ∀ r ∈ Pool2.worker net jobs,
      ∃ j2 ∈ jobs, (net j2).dialOk = true ∧
        r = ⟨joinHostPort j2.IP j2.Port, (net j2).dialDur, j2.Protocol⟩) ∧
    (∀ env : NetEnv, ∀ ip : String, ∀ port : Nat,
      env.writeOk = false ∨ env.readOk = false →
      Probe1.probeEndpoint env ip "udp" port = none) :=
  ⟨worker_split net pre post j hfail,
   fun jobs => worker_sound net jobs,
   fun env ip port h => probeEndpoint_handshake_fail env ip port h⟩

/-- C6 witnessed: with jobGood succeeding and jobBad failing to dial, the
failing job in the middle of the stream drops out of the results while the
rest of the stream is still processed. -/
theorem C6_probe_failure_never_aborts_witness :
    Pool2.worker netTwoJobs ([jobGood] ++ jobBad :: [jobGood])
      = Pool2.worker netTwoJobs [jobGood] ++ Pool2.worker netTwoJobs [jobGood] :=
  (C6_probe_failure_never_aborts netTwoJobs [jobGood] [jobGood] jobBad (by decide)).1

/-- C7: counterexample.  In a run where the dial takes 5ms and the
handshake write plus response read take 45ms, the successful udp probe of
part_001 reports latency 5ms, the dial span, not the 45ms span from just
before the handshake write to just after the read completes. -/
theorem C7_counterexample :
    Probe1.probeEndpoint envSlowHandshake "162.159.192.1" "udp" 2408
      = some ⟨"162.159.192.1:2408", 5000000, "udp"⟩ ∧
    handshakeSpan envSlowHandshake = 45000000 ∧
    (5000000 : Nat) ≠ 45000000 := by
  decide

/-- C7 (amended): the latency reported by a successful udp probe is
exactly the duration of the dial: it is captured by time.Since(start)
immediately after DialTimeout returns, before the handshake write, and so
excludes the whole handshake exchange (and any generator or scheduling
overhead before the probe started). -/
theorem C7_latency_is_dial_span (env : NetEnv) (ip : String) (port : Nat)
    (r : EndpointResult)
    (h : Probe1.probeEndpoint env ip "udp" port = some r) :
    r.Latency = env.dialDur := by
  obtain ⟨d, dd, w, wd, rb, rd⟩ := env
  cases d <;> cases w <;> cases rb <;> simp_all [Probe1.probeEndpoint]
  simp [← h]

/-- C7 (amended) witnessed on envSlowHandshake. -/
theorem C7_latency_is_dial_span_witness :
    (⟨"162.159.192.1:2408", 5000000, "udp"⟩ : EndpointResult).Latency
      = envSlowHandshake.dialDur :=
  C7_latency_is_dial_span envSlowHandshake "162.159.192.1" 2408 _ (by decide)

/-- C8: the best-of view is total.  On an empty protocol collection it is
the none-found signal, and on a non-empty collection it is exactly the
first element, so the underlying index access only happens under the
non-emptiness guard. -/
theorem C8_best_total (l : List EndpointResult) :
    (l = [] → bestEndpoint l = none) ∧
    (∀ x xs, l = x :: xs → bestEndpoint l = some x) := by
  constructor
  · rintro rfl
    simp [bestEndpoint]
  · rintro x xs rfl
    simp [bestEndpoint]

/-- C8 witnessed on the empty and a singleton collection. -/
theorem C8_best_total_witness :
    bestEndpoint [] = none ∧ bestEndpoint [rUdp] = some rUdp :=
  ⟨(C8_best_total []).1 rfl, (C8_best_total [rUdp]).2 rUdp [] rfl⟩

/-- C10: the aggregation loop partitions the received successes by
protocol: the two collections together are a permutation of everything
received, membership in the tcp collection is exactly membership in the
received stream with Protocol tcp, membership in the udp collection is
exactly membership with any other Protocol, and no result is in both. -/
theorem C10_partition (received : List EndpointResult) :
    ((foldResults received).1 ++ (foldResults received).2).Perm received ∧
    (∀ r, r ∈ (foldResults received).1 ↔ r ∈ received ∧ r.Protocol = "tcp") ∧
    (∀ r, r ∈ (foldResults received).2 ↔ r ∈ received ∧ r.Protocol ≠ "tcp") ∧
    (∀ r, r ∈ (foldResults received).1 → r ∉ (foldResults received).2) := by
  rw [foldResults_eq_filter received]
  refine ⟨List.filter_append_perm _ received, ?_, ?_, ?_⟩
  · intro r
    simp [List.mem_filter]
  · intro r
    simp [List.mem_filter]
  · intro r hr hu
    simp [List.mem_filter] at hr hu
    exact hu.2 hr.2

/-- C10 witnessed on a two-element received stream, one tcp and one udp. -/
theorem C10_partition_witness :
    rTieFirst ∈ (foldResults [rUdp, rTieFirst]).1 ∧
    rTieFirst ∉ (foldResults [rUdp, rTieFirst]).2 :=
  ⟨((C10_partition [rUdp, rTieFirst]).2.1 rTieFirst).mpr (by decide),
   (C10_partition [rUdp, rTieFirst]).2.2.2 rTieFirst
     (((C10_partition [rUdp, rTieFirst]).2.1 rTieFirst).mpr (by decide))⟩

/-- C2: counterexample.  The sort.Slice contract admits, for an input with
two distinct equal-latency outcomes discovered in the order rTieFirst then
rTieSecond, the output that reverses them: stability is not guaranteed, so
equal-latency outcomes need not appear in discovery order. -/
theorem C2_counterexample :
    sortSliceOk endpointLess [rTieFirst, rTieSecond] [rTieSecond, rTieFirst] ∧
    rTieFirst.Latency = rTieSecond.Latency ∧
    [rTieSecond, rTieFirst] ≠ [rTieFirst, rTieSecond] := by
  decide

/-- C2 (amended): any output the ranking step can produce is a permutation
of the protocol's successes, is ascending in latency (no outcome with
larger latency precedes one with smaller), and its latency sequence is
exactly the ascending sort of the input latencies; only the order among
equal-latency outcomes is unspecified. -/
theorem C2_rank_sorted_perm (l out : List EndpointResult)
    (h : sortSliceOk endpointLess l out) :
    out.Perm l ∧
    out.Pairwise (fun a b => a.Latency ≤ b.Latency) ∧
    out.map EndpointResult.Latency
      = (l.map EndpointResult.Latency).insertionSort (· ≤ ·) := by
  obtain ⟨hperm, hpair⟩ := h
  have hle : out.Pairwise (fun a b => a.Latency ≤ b.Latency) := by
    refine hpair.imp ?_
    intro a b hab
    have hn : ¬ (b.Latency < a.Latency) := by
      simpa [endpointLess] using hab
    exact Nat.le_of_not_lt hn
  refine ⟨hperm, hle, ?_⟩
  have hsorted1 : (out.map EndpointResult.Latency).Sorted (· ≤ ·) := by
    rw [List.Sorted, List.pairwise_map]
    exact hle
  have hsorted2 :
      ((l.map EndpointResult.Latency).insertionSort (· ≤ ·)).Sorted (· ≤ ·) :=
    List.sorted_insertionSort _ _
  have hp : (out.map EndpointResult.Latency).Perm
      ((l.map EndpointResult.Latency).insertionSort (· ≤ ·)) :=
    (hperm.map _).trans (List.perm_insertionSort _ _).symm
  exact List.eq_of_perm_of_sorted hp hsorted1 hsorted2

/-- C2 (amended) witnessed on the ranking scenario of the spec: latencies
30, 10, 10, 50 rank to the ascending latency sequence 10, 10, 30, 50. -/
theorem C2_rank_sorted_perm_witness :
    ([rTieFirst, rTieSecond, rLat30, rLat50] : List EndpointResult).Perm
      [rLat30, rTieFirst, rTieSecond, rLat50] ∧
    ([rTieFirst, rTieSecond, rLat30, rLat50] : List EndpointResult).Pairwise
      (fun a b => a.Latency ≤ b.Latency) ∧
    ([rTieFirst, rTieSecond, rLat30, rLat50] : List EndpointResult).map
        EndpointResult.Latency
      = (([rLat30, rTieFirst, rTieSecond, rLat50] : List EndpointResult).map
          EndpointResult.Latency).insertionSort (· ≤ ·) :=
  C2_rank_sorted_perm [rLat30, rTieFirst, rTieSecond, rLat50]
    [rTieFirst, rTieSecond, rLat30, rLat50] (by decide)

/-! ## List and multiset helpers for the pool invariant -/

/-- Splitting a list at an index it contains, together with the effect of
setting that index. -/
theorem decomp_idx {α : Type} (l : List α) (i : Nat) (a : α)
    (h : l[i]? = some a) :
    l = l.take i ++ a :: l.drop (i + 1) ∧
    ∀ b, l.set i b = l.take i ++ b :: l.drop (i + 1) := by
  obtain ⟨hlt, hget⟩ := List.getElem?_eq_some_iff.mp h
  constructor
  · conv_lhs => rw [← List.take_append_drop i l]
    rw [← List.getElem_cons_drop l i hlt, hget]
  · intro b
    exact List.set_eq_take_cons_drop b hlt

/-- Reading back the index just set. -/
theorem set_getElem?_self {α : Type} (l : List α) (i : Nat) (a b : α)
    (h : l[i]? = some a) : (l.set i b)[i]? = some b := by
  obtain ⟨hlt, _⟩ := List.getElem?_eq_some_iff.mp h
  obtain ⟨_, hs⟩ := decomp_idx l i a h
  rw [hs b, List.getElem?_append_right, List.length_take]
  · simp [Nat.min_eq_left (Nat.le_of_lt hlt)]
  · simp [List.length_take]

/-- Effect of set on countP, at an index the list contains. -/
theorem countP_set_of_idx {α : Type} (l : List α) (i : Nat) (a b : α)
    (p : α → Bool) (h : l[i]? = some a) :
    (l.set i b).countP p + (if p a then 1 else 0)
      = l.countP p + (if p b then 1 else 0) := by
  obtain ⟨hl, hs⟩ := decomp_idx l i a h
  rw [hs b]
  conv_rhs => rw [hl]
  simp only [List.countP_append, List.countP_cons]
  omega

/-- Setting an index to a pair with the same first component leaves the
projection to first components unchanged. -/
theorem mapfst_set_of_idx {α β : Type} (l : List (α × β)) (i : Nat)
    (c : α) (x y : β) (h : l[i]? = some (c, x)) :
    (l.set i (c, y)).map Prod.fst = l.map Prod.fst := by
  obtain ⟨hl, hs⟩ := decomp_idx l i (c, x) h
  rw [hs (c, y)]
  conv_rhs => rw [hl]
  simp

/-- Effect of set on the multiset of flatMap results, at an index the list
contains. -/
theorem flatMap_set_of_idx {α β : Type} (l : List α) (i : Nat) (a b : α)
    (f : α → List β) (h : l[i]? = some a) :
    (↑((l.set i b).flatMap f) + ↑(f a) : Multiset β)
      = ↑(l.flatMap f) + ↑(f b) := by
  obtain ⟨hl, hs⟩ := decomp_idx l i a h
  rw [hs b]
  conv_rhs => rw [hl]
  simp only [List.flatMap_append, List.flatMap_cons, ← Multiset.coe_add]
  abel

/-- An element read off a list by index is a member. -/
theorem mem_of_idx {α : Type} (l : List α) (i : Nat) (a : α)
    (h : l[i]? = some a) : a ∈ l :=
  List.getElem?_mem h

namespace Pool

/-- The invariant holds initially. -/
theorem inv_init (cfg : Config) : Inv cfg (init cfg) := by
  refine ⟨rfl, rfl, ?_, rfl, ?_, ?_, ?_, ?_, ?_⟩
  · intro L _
    exact Nat.zero_le L
  · unfold stateOutcomes init
    simp
  · intro i c r hj
    simp [init] at hj
  · intro h
    exact absurd rfl h
  · intro h
    rcases h with h | h <;> simp [init] at h
  · intro h
    simp [init] at h

/-- The invariant is preserved by the spawn step. -/
theorem inv_spawn (cfg : Config) (s : PoolState) (c : Candidate)
    (rest : List Candidate) (hInv : Inv cfg s)
    (hphase : s.phase = MainPhase.spawning) (hspawn : s.toSpawn = c :: rest)
    (hguard : ∀ L, cfg.guard = some L → s.guardUsed < L) :
    Inv cfg { s with
              toSpawn := rest
              wg := s.wg + 1
              guardUsed := s.guardUsed + 1
              procs := s.procs ++ [(c, ProcPhase.running)] } := by
  refine ⟨?_, ?_, ?_, ?_, ?_, ?_, ?_, ?_, ?_⟩
  · dsimp only
    rw [List.countP_append]
    have h1 := hInv.wg_eq
    have h2 : List.countP (fun p => inProbe p.2) [(c, ProcPhase.running)] = 1 := rfl
    omega
  · dsimp only
    rw [List.countP_append]
    have h1 := hInv.guard_eq
    have h2 : List.countP (fun p => holdsSlot p.2) [(c, ProcPhase.running)] = 1 := rfl
    omega
  · intro L hL
    have := hguard L hL
    dsimp only
    omega
  · dsimp only
    rw [List.map_append, List.append_assoc]
    simpa [hspawn] using hInv.spawned
  · have h0 := hInv.outcomes
    unfold stateOutcomes allOutcomes at h0 ⊢
    dsimp only
    rw [hspawn] at h0
    simp only [List.flatMap_append, List.flatMap_cons, List.flatMap_nil,
      List.append_nil, ← Multiset.coe_add] at h0 ⊢
    have hx : phaseOutcomes cfg (c, ProcPhase.running) = (cfg.net c).toList := rfl
    rw [hx, ← h0]
    abel
  · intro j c2 r hj
    dsimp only at hj
    by_cases hlt : j < s.procs.length
    · rw [List.getElem?_append_left hlt] at hj
      exact hInv.sending_net j c2 r hj
    · rw [List.getElem?_append_right (le_of_not_lt hlt)] at hj
      rcases hk : j - s.procs.length with _ | k <;> rw [hk] at hj <;> simp at hj
  · intro hne
    dsimp only at hne
    exact absurd hphase hne
  · intro hc
    dsimp only at hc
    rcases hc with hc | hc <;> rw [hphase] at hc <;> simp at hc
  · intro hc
    dsimp only at hc
    rw [hphase] at hc
    simp at hc

end Pool

namespace Pool

/-- countP is unchanged by a set that does not change the predicate value. -/
theorem countP_set_same {α : Type} (l : List α) (i : Nat) (a b : α)
    (p : α → Bool) (h : l[i]? = some a) (hab : p a = p b) :
    (l.set i b).countP p = l.countP p := by
  have hc := countP_set_of_idx l i a b p h
  rw [hab] at hc
  omega

/-- countP drops by one on a set that turns the predicate from true to
false. -/
theorem countP_set_drop {α : Type} (l : List α) (i : Nat) (a b : α)
    (p : α → Bool) (h : l[i]? = some a) (ha : p a = true)
    (hb : p b = false) :
    (l.set i b).countP p + 1 = l.countP p := by
  have hc := countP_set_of_idx l i a b p h
  rw [ha, hb] at hc
  simp at hc
  omega

/-- The flatMap multiset is unchanged by a set that does not change the
mapped value. -/
theorem flatMap_set_same {α β : Type} (l : List α) (i : Nat) (a b : α)
    (f : α → List β) (h : l[i]? = some a) (hab : f a = f b) :
    (↑((l.set i b).flatMap f) : Multiset β) = ↑(l.flatMap f) := by
  have hc := flatMap_set_of_idx l i a b f h
  rw [hab] at hc
  exact add_right_cancel hc

/-- The invariant is preserved by the finish step. -/
theorem inv_finish (cfg : Config) (s : PoolState) (i : Nat) (c : Candidate)
    (hInv : Inv cfg s) (hget : s.procs[i]? = some (c, ProcPhase.running)) :
    Inv cfg { s with procs := s.procs.set i (c, finishPhase cfg c) } := by
  have hnp : inProbe (finishPhase cfg c) = true := by
    unfold finishPhase
    cases cfg.net c <;> rfl
  have hns : holdsSlot (finishPhase cfg c) = true := by
    unfold finishPhase
    cases cfg.net c <;> rfl
  refine ⟨?_, ?_, ?_, ?_, ?_, ?_, ?_, ?_, ?_⟩
  · dsimp only
    rw [countP_set_same s.procs i (c, ProcPhase.running) (c, finishPhase cfg c)
      (fun p => inProbe p.2) hget
      (by show inProbe ProcPhase.running = inProbe (finishPhase cfg c)
          rw [hnp]
          rfl)]
    exact hInv.wg_eq
  · dsimp only
    rw [countP_set_same s.procs i (c, ProcPhase.running) (c, finishPhase cfg c)
      (fun p => holdsSlot p.2) hget
      (by show holdsSlot ProcPhase.running = holdsSlot (finishPhase cfg c)
          rw [hns]
          rfl)]
    exact hInv.guard_eq
  · exact hInv.guard_le
  · dsimp only
    rw [mapfst_set_of_idx s.procs i c ProcPhase.running (finishPhase cfg c) hget]
    exact hInv.spawned
  · have hfeq : phaseOutcomes cfg (c, ProcPhase.running)
        = phaseOutcomes cfg (c, finishPhase cfg c) := by
      unfold phaseOutcomes finishPhase
      rcases hnc : cfg.net c with _ | r2 <;> simp [hnc]
    have hflat := flatMap_set_same s.procs i (c, ProcPhase.running)
      (c, finishPhase cfg c) (phaseOutcomes cfg) hget hfeq
    have h0 := hInv.outcomes
    unfold stateOutcomes at h0 ⊢
    dsimp only
    rw [hflat]
    exact h0
  · intro j c2 r hj
    dsimp only at hj
    by_cases hji : i = j
    · subst hji
      rw [set_getElem?_self s.procs i (c, ProcPhase.running) _ hget] at hj
      unfold finishPhase at hj
      rcases hnc : cfg.net c with _ | r2
      · rw [hnc] at hj
        simp at hj
      · rw [hnc] at hj
        simp at hj
        rw [← hj.1, hnc, hj.2]
    · rw [List.getElem?_set_ne hji] at hj
      exact hInv.sending_net j c2 r hj
  · exact hInv.no_spawn_late
  · exact hInv.wg_zero_late
  · exact hInv.buffer_empty_rank

end Pool

namespace Pool

/-- The invariant is preserved by the send step. -/
theorem inv_send (cfg : Config) (s : PoolState) (i : Nat) (c : Candidate)
    (r : EndpointResult) (hInv : Inv cfg s)
    (hget : s.procs[i]? = some (c, ProcPhase.sending r)) :
    Inv cfg { s with
              buffer := s.buffer ++ [r]
              procs := s.procs.set i (c, ProcPhase.finishing) } := by
  refine ⟨?_, ?_, ?_, ?_, ?_, ?_, ?_, ?_, ?_⟩
  · dsimp only
    rw [countP_set_same s.procs i (c, ProcPhase.sending r) (c, ProcPhase.finishing)
      (fun p => inProbe p.2) hget rfl]
    exact hInv.wg_eq
  · dsimp only
    rw [countP_set_same s.procs i (c, ProcPhase.sending r) (c, ProcPhase.finishing)
      (fun p => holdsSlot p.2) hget rfl]
    exact hInv.guard_eq
  · exact hInv.guard_le
  · dsimp only
    rw [mapfst_set_of_idx s.procs i c (ProcPhase.sending r) ProcPhase.finishing hget]
    exact hInv.spawned
  · have hflat := flatMap_set_of_idx s.procs i (c, ProcPhase.sending r)
      (c, ProcPhase.finishing) (phaseOutcomes cfg) hget
    have h1 : phaseOutcomes cfg (c, ProcPhase.sending r) = [r] := rfl
    have h2 : phaseOutcomes cfg (c, ProcPhase.finishing) = [] := rfl
    rw [h1, h2] at hflat
    simp only [Multiset.coe_nil, add_zero] at hflat
    have h0 := hInv.outcomes
    unfold stateOutcomes at h0 ⊢
    dsimp only
    rw [← hflat] at h0
    rw [← h0]
    simp only [← Multiset.coe_add]
    abel
  · intro j c2 r2 hj
    dsimp only at hj
    by_cases hji : i = j
    · subst hji
      rw [set_getElem?_self s.procs i (c, ProcPhase.sending r) _ hget] at hj
      simp at hj
    · rw [List.getElem?_set_ne hji] at hj
      exact hInv.sending_net j c2 r2 hj
  · exact hInv.no_spawn_late
  · exact hInv.wg_zero_late
  · intro hrank
    dsimp only at hrank
    have hw := hInv.wg_zero_late (Or.inr hrank)
    have he := hInv.wg_eq
    have hmem := mem_of_idx s.procs i (c, ProcPhase.sending r) hget
    have hpos : 0 < s.procs.countP (fun p => inProbe p.2) :=
      List.countP_pos_iff.mpr ⟨(c, ProcPhase.sending r), hmem, rfl⟩
    omega

/-- The invariant is preserved by the wg.Done step. -/
theorem inv_wgdone (cfg : Config) (s : PoolState) (i : Nat) (c : Candidate)
    (hInv : Inv cfg s)
    (hget : s.procs[i]? = some (c, ProcPhase.finishing)) :
    Inv cfg { s with
              wg := s.wg - 1
              procs := s.procs.set i (c, ProcPhase.releasing) } := by
  refine ⟨?_, ?_, ?_, ?_, ?_, ?_, ?_, ?_, ?_⟩
  · have hdrop := countP_set_drop s.procs i (c, ProcPhase.finishing)
      (c, ProcPhase.releasing) (fun p => inProbe p.2) hget rfl rfl
    have he := hInv.wg_eq
    dsimp only
    omega
  · dsimp only
    rw [countP_set_same s.procs i (c, ProcPhase.finishing) (c, ProcPhase.releasing)
      (fun p => holdsSlot p.2) hget rfl]
    exact hInv.guard_eq
  · exact hInv.guard_le
  · dsimp only
    rw [mapfst_set_of_idx s.procs i c ProcPhase.finishing ProcPhase.releasing hget]
    exact hInv.spawned
  · have hflat := flatMap_set_same s.procs i (c, ProcPhase.finishing)
      (c, ProcPhase.releasing) (phaseOutcomes cfg) hget rfl
    have h0 := hInv.outcomes
    unfold stateOutcomes at h0 ⊢
    dsimp only
    rw [hflat]
    exact h0
  · intro j c2 r2 hj
    dsimp only at hj
    by_cases hji : i = j
    · subst hji
      rw [set_getElem?_self s.procs i (c, ProcPhase.finishing) _ hget] at hj
      simp at hj
    · rw [List.getElem?_set_ne hji] at hj
      exact hInv.sending_net j c2 r2 hj
  · exact hInv.no_spawn_late
  · intro hc
    dsimp only at hc ⊢
    have := hInv.wg_zero_late hc
    omega
  · exact hInv.buffer_empty_rank

/-- The invariant is preserved by the guard release step. -/
theorem inv_release (cfg : Config) (s : PoolState) (i : Nat) (c : Candidate)
    (hInv : Inv cfg s)
    (hget : s.procs[i]? = some (c, ProcPhase.releasing)) :
    Inv cfg { s with
              guardUsed := s.guardUsed - 1
              procs := s.procs.set i (c, ProcPhase.done) } := by
  refine ⟨?_, ?_, ?_, ?_, ?_, ?_, ?_, ?_, ?_⟩
  · dsimp only
    rw [countP_set_same s.procs i (c, ProcPhase.releasing) (c, ProcPhase.done)
      (fun p => inProbe p.2) hget rfl]
    exact hInv.wg_eq
  · have hdrop := countP_set_drop s.procs i (c, ProcPhase.releasing)
      (c, ProcPhase.done) (fun p => holdsSlot p.2) hget rfl rfl
    have he := hInv.guard_eq
    dsimp only
    omega
  · intro L hL
    have := hInv.guard_le L hL
    dsimp only
    omega
  · dsimp only
    rw [mapfst_set_of_idx s.procs i c ProcPhase.releasing ProcPhase.done hget]
    exact hInv.spawned
  · have hflat := flatMap_set_same s.procs i (c, ProcPhase.releasing)
      (c, ProcPhase.done) (phaseOutcomes cfg) hget rfl
    have h0 := hInv.outcomes
    unfold stateOutcomes at h0 ⊢
    dsimp only
    rw [hflat]
    exact h0
  · intro j c2 r2 hj
    dsimp only at hj
    by_cases hji : i = j
    · subst hji
      rw [set_getElem?_self s.procs i (c, ProcPhase.releasing) _ hget] at hj
      simp at hj
    · rw [List.getElem?_set_ne hji] at hj
      exact hInv.sending_net j c2 r2 hj
  · exact hInv.no_spawn_late
  · exact hInv.wg_zero_late
  · exact hInv.buffer_empty_rank

end Pool

namespace Pool

/-- The invariant is preserved when main passes the spawn loop. -/
theorem inv_wait (cfg : Config) (s : PoolState) (hInv : Inv cfg s)
    (hempty : s.toSpawn = []) :
    Inv cfg { s with phase := MainPhase.waiting } := by
  refine ⟨hInv.wg_eq, hInv.guard_eq, hInv.guard_le, hInv.spawned, ?_,
    hInv.sending_net, ?_, ?_, ?_⟩
  · have h0 := hInv.outcomes
    unfold stateOutcomes at h0 ⊢
    exact h0
  · intro _
    exact hempty
  · intro hc
    dsimp only at hc
    rcases hc with hc | hc <;> cases hc
  · intro hc
    dsimp only at hc
    cases hc

/-- The invariant is preserved when main passes wg.Wait and closes the
channel. -/
theorem inv_close (cfg : Config) (s : PoolState) (hInv : Inv cfg s)
    (hphase : s.phase = MainPhase.waiting) (hwg : s.wg = 0) :
    Inv cfg { s with phase := MainPhase.draining } := by
  refine ⟨hInv.wg_eq, hInv.guard_eq, hInv.guard_le, hInv.spawned, ?_,
    hInv.sending_net, ?_, ?_, ?_⟩
  · have h0 := hInv.outcomes
    unfold stateOutcomes at h0 ⊢
    exact h0
  · intro _
    apply hInv.no_spawn_late
    rw [hphase]
    simp
  · intro _
    exact hwg
  · intro hc
    dsimp only at hc
    cases hc

/-- The invariant is preserved when main moves one buffered outcome into
the protocol collections. -/
theorem inv_drain (cfg : Config) (s : PoolState) (r : EndpointResult)
    (rest : List EndpointResult) (hInv : Inv cfg s)
    (hphase : s.phase = MainPhase.draining) (hbuf : s.buffer = r :: rest) :
    Inv cfg { s with
              buffer := rest
              results := s.results ++ [r] } := by
  refine ⟨hInv.wg_eq, hInv.guard_eq, hInv.guard_le, hInv.spawned, ?_,
    hInv.sending_net, hInv.no_spawn_late, hInv.wg_zero_late, ?_⟩
  · have h0 := hInv.outcomes
    unfold stateOutcomes at h0 ⊢
    dsimp only
    rw [hbuf, ← List.singleton_append] at h0
    rw [← h0]
    simp only [← Multiset.coe_add]
    abel
  · intro hc
    dsimp only at hc
    rw [hphase] at hc
    cases hc

/-- The invariant is preserved when main exits the drain loop. -/
theorem inv_draindone (cfg : Config) (s : PoolState) (hInv : Inv cfg s)
    (hphase : s.phase = MainPhase.draining) (hbuf : s.buffer = []) :
    Inv cfg { s with phase := MainPhase.ranking } := by
  refine ⟨hInv.wg_eq, hInv.guard_eq, hInv.guard_le, hInv.spawned, ?_,
    hInv.sending_net, ?_, ?_, ?_⟩
  · have h0 := hInv.outcomes
    unfold stateOutcomes at h0 ⊢
    exact h0
  · intro _
    apply hInv.no_spawn_late
    rw [hphase]
    simp
  · intro _
    exact hInv.wg_zero_late (Or.inl hphase)
  · intro _
    exact hbuf

/-- The invariant is preserved by every step. -/
theorem inv_step (cfg : Config) (s s2 : PoolState)
    (hInv : Inv cfg s) (st : Step cfg s s2) : Inv cfg s2 := by
  cases st with
  | spawn c rest hphase hspawn hguard =>
    exact inv_spawn cfg s c rest hInv hphase hspawn hguard
  | finish i c hget => exact inv_finish cfg s i c hInv hget
  | send i c r hget hcap => exact inv_send cfg s i c r hInv hget
  | wgDone i c hget => exact inv_wgdone cfg s i c hInv hget
  | release i c hget => exact inv_release cfg s i c hInv hget
  | wait hphase hempty => exact inv_wait cfg s hInv hempty
  | closeChan hphase hwg => exact inv_close cfg s hInv hphase hwg
  | drain r rest hphase hbuf => exact inv_drain cfg s r rest hInv hphase hbuf
  | drainDone hphase hbuf => exact inv_draindone cfg s hInv hphase hbuf

/-- Every reachable state satisfies the invariant. -/
theorem reachable_inv (cfg : Config) (s : PoolState)
    (h : Reachable cfg s) : Inv cfg s := by
  induction h with
  | refl => exact inv_init cfg
  | tail hsteps hstep ih => exact inv_step cfg _ _ ih hstep

end Pool

namespace Pool

/-- A probe body that is still executing also still holds its guard slot. -/
theorem inProbe_holdsSlot (ph : ProcPhase) (h : inProbe ph = true) :
    holdsSlot ph = true := by
  cases ph <;> first
    | rfl
    | cases h

/-- Every phase list under phaseOutcomes contributes at most one outcome,
so a candidate list grants at most one outcome per candidate. -/
theorem allOutcomes_length_le (cfg : Config) (l : List Candidate) :
    (allOutcomes cfg l).length ≤ l.length := by
  induction l with
  | nil => simp [allOutcomes]
  | cons c rest ih =>
    unfold allOutcomes at ih ⊢
    rw [List.flatMap_cons, List.length_append]
    have : (cfg.net c).toList.length ≤ 1 := by
      cases cfg.net c <;> simp
    simp only [List.length_cons]
    omega

/-- Accounting bound from the outcome invariant: the buffered and the still
owed outcomes together never exceed the total number of outcomes the oracle
grants. -/
theorem buffer_owed_bound (cfg : Config) (s : PoolState) (hInv : Inv cfg s) :
    s.buffer.length + (s.procs.flatMap (phaseOutcomes cfg)).length
      ≤ (allOutcomes cfg cfg.cands).length := by
  have h0 := congrArg Multiset.card hInv.outcomes
  simp only [stateOutcomes, Multiset.card_add, Multiset.coe_card] at h0
  omega

/-- While some probe still has its send pending, the results channel buffer
has a free slot, provided the buffer capacity is at least the number of
candidates. -/
theorem send_has_room (cfg : Config) (s : PoolState) (hInv : Inv cfg s)
    (hcap : cfg.cands.length ≤ cfg.cap) (i : Nat) (c : Candidate)
    (r : EndpointResult) (hget : s.procs[i]? = some (c, ProcPhase.sending r)) :
    s.buffer.length < cfg.cap := by
  have hb := buffer_owed_bound cfg s hInv
  have ha := allOutcomes_length_le cfg cfg.cands
  have hmem : (c, ProcPhase.sending r) ∈ s.procs := mem_of_idx _ _ _ hget
  have hrmem : r ∈ s.procs.flatMap (phaseOutcomes cfg) :=
    List.mem_flatMap.mpr ⟨(c, ProcPhase.sending r), hmem, by simp [phaseOutcomes]⟩
  have hpos : 0 < (s.procs.flatMap (phaseOutcomes cfg)).length :=
    List.length_pos.mpr (List.ne_nil_of_mem hrmem)
  omega

end Pool

namespace Pool

/-- Effect of set on the sum of a numeric projection over a list. -/
theorem mapsum_set_of_idx {α : Type} (l : List α) (i : Nat) (a b : α)
    (f : α → Nat) (h : l[i]? = some a) :
    ((l.set i b).map f).sum + f a = (l.map f).sum + f b := by
  obtain ⟨hl, hs⟩ := decomp_idx l i a h
  rw [hs b]
  conv_rhs => rw [hl]
  simp only [List.map_append, List.map_cons, List.sum_append, List.sum_cons]
  omega

/-- In any state that is not yet ranking, some step is enabled, provided
there is no guard channel and the channel buffer has capacity for every
candidate (the scan.go shape). -/
theorem progress (cfg : Config) (s : PoolState) (hguard : cfg.guard = none)
    (hcap : cfg.cands.length ≤ cfg.cap) (hs : Reachable cfg s)
    (hnr : s.phase ≠ MainPhase.ranking) : ∃ s2, Step cfg s s2 := by
  have hInv := reachable_inv cfg s hs
  rcases hp : s.phase with _ | _ | _ | _
  · rcases hts : s.toSpawn with _ | ⟨c, rest⟩
    · exact ⟨_, Step.wait s hp hts⟩
    · refine ⟨_, Step.spawn s c rest hp hts ?_⟩
      intro L hL
      rw [hguard] at hL
      cases hL
  · rcases hwg : s.wg with _ | n
    · exact ⟨_, Step.closeChan s hp hwg⟩
    · have hcpos : 0 < s.procs.countP (fun p => inProbe p.2) := by
        have := hInv.wg_eq
        omega
      obtain ⟨p, hpmem, hpp⟩ := List.countP_pos_iff.mp hcpos
      obtain ⟨i, hi⟩ := List.mem_iff_getElem?.mp hpmem
      obtain ⟨c, ph⟩ := p
      rcases hph : ph with _ | r | _ | _ | _
      · rw [hph] at hi
        exact ⟨_, Step.finish s i c hi⟩
      · rw [hph] at hi
        exact ⟨_, Step.send s i c r hi (send_has_room cfg s hInv hcap i c r hi)⟩
      · rw [hph] at hi
        exact ⟨_, Step.wgDone s i c hi⟩
      · rw [hph] at hpp
        cases hpp
      · rw [hph] at hpp
        cases hpp
  · rcases hbuf : s.buffer with _ | ⟨r, rest⟩
    · exact ⟨_, Step.drainDone s hp hbuf⟩
    · exact ⟨_, Step.drain s r rest hp hbuf⟩
  · exact absurd hp hnr

/-- Every step strictly decreases the measure: no run of the pool can take
infinitely many steps, so together with progress the wait-then-drain
structure always terminates. -/
theorem measure_decreasing (cfg : Config) (s s2 : PoolState)
    (st : Step cfg s s2) : poolMeasure s2 < poolMeasure s := by
  cases st with
  | spawn c rest hphase hspawn hguard =>
    unfold poolMeasure
    dsimp only
    rw [hspawn, List.map_append, List.sum_append]
    simp only [List.length_cons, List.map_cons, List.map_nil, List.sum_cons,
      List.sum_nil]
    have : phaseWeight ProcPhase.running = 5 := rfl
    omega
  | finish i c hget =>
    unfold poolMeasure
    dsimp only
    have hsum := mapsum_set_of_idx s.procs i (c, ProcPhase.running)
      (c, finishPhase cfg c) (fun p => phaseWeight p.2) hget
    have hw1 : phaseWeight ProcPhase.running = 5 := rfl
    have hw2 : phaseWeight (finishPhase cfg c) ≤ 4 := by
      unfold finishPhase
      cases cfg.net c <;> simp [phaseWeight]
    dsimp only at hsum
    omega
  | send i c r hget hcap =>
    unfold poolMeasure
    dsimp only
    have hsum := mapsum_set_of_idx s.procs i (c, ProcPhase.sending r)
      (c, ProcPhase.finishing) (fun p => phaseWeight p.2) hget
    dsimp only at hsum
    have hw1 : phaseWeight (ProcPhase.sending r) = 4 := rfl
    have hw2 : phaseWeight ProcPhase.finishing = 2 := rfl
    rw [List.length_append]
    simp only [List.length_cons, List.length_nil]
    omega
  | wgDone i c hget =>
    unfold poolMeasure
    dsimp only
    have hsum := mapsum_set_of_idx s.procs i (c, ProcPhase.finishing)
      (c, ProcPhase.releasing) (fun p => phaseWeight p.2) hget
    dsimp only at hsum
    have hw1 : phaseWeight ProcPhase.finishing = 2 := rfl
    have hw2 : phaseWeight ProcPhase.releasing = 1 := rfl
    omega
  | release i c hget =>
    unfold poolMeasure
    dsimp only
    have hsum := mapsum_set_of_idx s.procs i (c, ProcPhase.releasing)
      (c, ProcPhase.done) (fun p => phaseWeight p.2) hget
    dsimp only at hsum
    have hw1 : phaseWeight ProcPhase.releasing = 1 := rfl
    have hw2 : phaseWeight ProcPhase.done = 0 := rfl
    omega
  | wait hphase hempty =>
    unfold poolMeasure
    dsimp only
    rw [hphase]
    simp [mainWeight]
  | closeChan hphase hwg =>
    unfold poolMeasure
    dsimp only
    rw [hphase]
    simp [mainWeight]
  | drain r rest hphase hbuf =>
    unfold poolMeasure
    dsimp only
    rw [hbuf]
    simp
  | drainDone hphase hbuf =>
    unfold poolMeasure
    dsimp only
    rw [hphase]
    simp [mainWeight]

end Pool

/-- Each address expands to one candidate per port and protocol: 26 ports
times 2 protocols. -/
theorem scanCandidates_inner_len (ip : String) :
    (ScanGo.portsToScan.flatMap fun port =>
      [(⟨ip, port, "tcp"⟩ : Candidate), ⟨ip, port, "udp"⟩]).length = 52 := by
  rfl

/-- Length of the flatMap underlying scanCandidates. -/
theorem scanCandidates_flat_len (l : List String) :
    (l.flatMap fun ip => ScanGo.portsToScan.flatMap fun port =>
      [(⟨ip, port, "tcp"⟩ : Candidate), ⟨ip, port, "udp"⟩]).length
      = l.length * 52 := by
  induction l with
  | nil => rfl
  | cons ip rest ih =>
    rw [List.flatMap_cons, List.length_append, ih, scanCandidates_inner_len]
    simp only [List.length_cons]
    omega

/-- C4: for every concurrency limit L of the guard channel, no reachable
state of a run has more than L probe bodies executing at once: each
executing probe holds one of the L guard slots, acquired before its
goroutine was spawned and released only after its probe body returned. -/
theorem C4_concurrency_bounded (cfg : Pool.Config) (L : Nat) (_hL : 1 ≤ L)
    (hg : cfg.guard = some L) (s : Pool.PoolState)
    (hs : Pool.Reachable cfg s) :
    s.procs.countP (fun p => Pool.inProbe p.2) ≤ L := by
  have hInv := Pool.reachable_inv cfg s hs
  have hmono : s.procs.countP (fun p => Pool.inProbe p.2)
      ≤ s.procs.countP (fun p => Pool.holdsSlot p.2) :=
    List.countP_mono_left fun p _ hp => Pool.inProbe_holdsSlot p.2 hp
  have hge := hInv.guard_eq
  have hle := hInv.guard_le L hg
  omega

/-- Reaching the state of cfgGuard in which its single probe is running. -/
theorem reach_guardRun : Pool.Reachable Pool.cfgGuard Pool.guardRunState := by
  have hg : ∀ L, Pool.cfgGuard.guard = some L →
      (Pool.init Pool.cfgGuard).guardUsed < L := by
    intro L hL
    have hgg : Pool.cfgGuard.guard = some 1 := rfl
    rw [hgg] at hL
    cases hL
    decide
  have h1 : Pool.Step Pool.cfgGuard (Pool.init Pool.cfgGuard)
      Pool.guardRunState :=
    Pool.Step.spawn (Pool.init Pool.cfgGuard) cand0 [] rfl rfl hg
  exact Relation.ReflTransGen.single h1

/-- C4 witnessed: a run of cfgGuard with its probe executing respects the
limit 1. -/
theorem C4_concurrency_bounded_witness :
    Pool.guardRunState.procs.countP (fun p => Pool.inProbe p.2) ≤ 1 :=
  C4_concurrency_bounded Pool.cfgGuard 1 (by decide) rfl Pool.guardRunState
    reach_guardRun

/-- C5: run is a barrier.  In any reachable state in which main has reached
the ranking phase, every candidate was spawned, every probe body has
returned (completed or timed out), and the results collection holds exactly
the successful outcomes of the whole candidate sequence: nothing is still
buffered or in flight when ranking begins. -/
theorem C5_run_barrier (cfg : Pool.Config) (s : Pool.PoolState)
    (hs : Pool.Reachable cfg s) (hrank : s.phase = Pool.MainPhase.ranking) :
    s.procs.map Prod.fst = cfg.cands ∧
    (∀ p ∈ s.procs, p.2 = Pool.ProcPhase.releasing ∨ p.2 = Pool.ProcPhase.done) ∧
    s.results.Perm (Pool.allOutcomes cfg cfg.cands) := by
  have hInv := Pool.reachable_inv cfg s hs
  have hts : s.toSpawn = [] := by
    apply hInv.no_spawn_late
    rw [hrank]
    simp
  have hw : s.wg = 0 := hInv.wg_zero_late (Or.inr hrank)
  have hcz : s.procs.countP (fun p => Pool.inProbe p.2) = 0 := by
    have := hInv.wg_eq
    omega
  have hterm : ∀ p ∈ s.procs,
      p.2 = Pool.ProcPhase.releasing ∨ p.2 = Pool.ProcPhase.done := by
    intro p hp
    have hnp : ¬ ((fun p => Pool.inProbe p.2) p = true) :=
      List.countP_eq_zero.mp hcz p hp
    obtain ⟨c, ph⟩ := p
    rcases ph with _ | r | _ | _ | _
    · exact absurd rfl hnp
    · exact absurd rfl hnp
    · exact absurd rfl hnp
    · exact Or.inl rfl
    · exact Or.inr rfl
  refine ⟨?_, hterm, ?_⟩
  · have hsp := hInv.spawned
    rw [hts, List.append_nil] at hsp
    exact hsp
  · have hb : s.buffer = [] := hInv.buffer_empty_rank hrank
    have hpf : s.procs.flatMap (Pool.phaseOutcomes cfg) = [] := by
      rw [List.flatMap_eq_nil_iff]
      intro p hp
      obtain ⟨c, ph⟩ := p
      have h2 := hterm (c, ph) hp
      dsimp only at h2
      rcases h2 with h | h <;> rw [h] <;> rfl
    have h0 := hInv.outcomes
    unfold Pool.stateOutcomes at h0
    rw [hts, hb, hpf] at h0
    have hz : Pool.allOutcomes cfg [] = [] := rfl
    rw [hz] at h0
    simp only [Multiset.coe_nil, add_zero] at h0
    exact Multiset.coe_eq_coe.mp h0

/-- Reaching the completed run of the empty candidate list. -/
theorem reach_emptyRank : Pool.Reachable Pool.cfgEmpty Pool.emptyRankState := by
  have h1 : Pool.Step Pool.cfgEmpty (Pool.init Pool.cfgEmpty)
      { Pool.init Pool.cfgEmpty with phase := Pool.MainPhase.waiting } :=
    Pool.Step.wait (Pool.init Pool.cfgEmpty) rfl rfl
  have h2 : Pool.Step Pool.cfgEmpty
      { Pool.init Pool.cfgEmpty with phase := Pool.MainPhase.waiting }
      { Pool.init Pool.cfgEmpty with phase := Pool.MainPhase.draining } :=
    Pool.Step.closeChan
      { Pool.init Pool.cfgEmpty with phase := Pool.MainPhase.waiting } rfl rfl
  have h3 : Pool.Step Pool.cfgEmpty
      { Pool.init Pool.cfgEmpty with phase := Pool.MainPhase.draining }
      Pool.emptyRankState :=
    Pool.Step.drainDone
      { Pool.init Pool.cfgEmpty with phase := Pool.MainPhase.draining } rfl rfl
  exact Relation.ReflTransGen.tail (Relation.ReflTransGen.tail
    (Relation.ReflTransGen.single h1) h2) h3

/-- C5 witnessed on the completed empty run. -/
theorem C5_run_barrier_witness :
    Pool.emptyRankState.procs.map Prod.fst = Pool.cfgEmpty.cands ∧
    (∀ p ∈ Pool.emptyRankState.procs,
      p.2 = Pool.ProcPhase.releasing ∨ p.2 = Pool.ProcPhase.done) ∧
    Pool.emptyRankState.results.Perm
      (Pool.allOutcomes Pool.cfgEmpty Pool.cfgEmpty.cands) :=
  C5_run_barrier Pool.cfgEmpty Pool.emptyRankState reach_emptyRank rfl

/-- C9: in the port-scan phase of scan.go the results channel can hold one
outcome per spawned probe goroutine, so a send never blocks and the
wait-then-drain barrier always terminates.  Conjuncts: the channel capacity
dominates the number of spawned goroutines (with the candidate list length
matching that count); in every reachable state with capacity at least the
number of candidates, any pending send finds a free buffer slot; in the
guardless scan.go shape every non-final reachable state can step; and every
step strictly decreases a natural measure, so no run goes on forever. -/
theorem C9_capacity_no_deadlock :
    (∀ n : Nat, ScanGo.spawnCount n ≤ ScanGo.chanCap n) ∧
    (∀ bestIPs : List String,
      (ScanGo.scanCandidates bestIPs).length
        = ScanGo.spawnCount bestIPs.length) ∧
    (∀ (cfg : Pool.Config) (s : Pool.PoolState),
      cfg.cands.length ≤ cfg.cap → Pool.Reachable cfg s →
      ∀ (i : Nat) (c : Candidate) (r : EndpointResult),
        s.procs[i]? = some (c, Pool.ProcPhase.sending r) →
        s.buffer.length < cfg.cap) ∧
    (∀ (cfg : Pool.Config) (s : Pool.PoolState),
      cfg.guard = none → cfg.cands.length ≤ cfg.cap →
      Pool.Reachable cfg s → s.phase ≠ Pool.MainPhase.ranking →
      ∃ s2, Pool.Step cfg s s2) ∧
    (∀ (cfg : Pool.Config) (s s2 : Pool.PoolState),
      Pool.Step cfg s s2 → Pool.poolMeasure s2 < Pool.poolMeasure s) := by
  refine ⟨?_, ?_, ?_, ?_, ?_⟩
  · intro n
    unfold ScanGo.spawnCount ScanGo.chanCap ScanGo.scanLimit
    have hp : ScanGo.portsToScan.length = 26 := rfl
    rw [hp]
    by_cases h : n < 30
    · rw [if_pos h]
    · rw [if_neg h]
      omega
  · intro bestIPs
    unfold ScanGo.scanCandidates ScanGo.spawnCount ScanGo.scanLimit
    rw [scanCandidates_flat_len, List.length_take]
    have hp : ScanGo.portsToScan.length = 26 := rfl
    rw [hp]
    by_cases h : bestIPs.length < 30
    · rw [if_pos h]
      omega
    · rw [if_neg h]
      omega
  · intro cfg s hcap hs i c r hget
    exact Pool.send_has_room cfg s (Pool.reachable_inv cfg s hs) hcap i c r hget
  · intro cfg s hguard hcap hs hnr
    exact Pool.progress cfg s hguard hcap hs hnr
  · intro cfg s s2 hstep
    exact Pool.measure_decreasing cfg s s2 hstep

/-- Reaching the state of cfgOne in which its probe has a send pending. -/
theorem reach_oneSending : Pool.Reachable Pool.cfgOne Pool.oneSendingState := by
  have hg : ∀ L, Pool.cfgOne.guard = some L →
      (Pool.init Pool.cfgOne).guardUsed < L := by
    intro L hL
    have hgn : Pool.cfgOne.guard = none := rfl
    rw [hgn] at hL
    cases hL
  have h1 : Pool.Step Pool.cfgOne (Pool.init Pool.cfgOne)
      { Pool.init Pool.cfgOne with
        toSpawn := []
        wg := 1
        guardUsed := 1
        procs := [(cand0, Pool.ProcPhase.running)] } :=
    Pool.Step.spawn (Pool.init Pool.cfgOne) cand0 [] rfl rfl hg
  have h2 : Pool.Step Pool.cfgOne
      { Pool.init Pool.cfgOne with
        toSpawn := []
        wg := 1
        guardUsed := 1
        procs := [(cand0, Pool.ProcPhase.running)] }
      Pool.oneSendingState :=
    Pool.Step.finish
      { Pool.init Pool.cfgOne with
        toSpawn := []
        wg := 1
        guardUsed := 1
        procs := [(cand0, Pool.ProcPhase.running)] } 0 cand0 rfl
  exact Relation.ReflTransGen.tail (Relation.ReflTransGen.single h1) h2

/-- C9 witnessed: the capacity bound at 40 best addresses, and the pending
send of the reachable sending state of cfgOne finds a free buffer slot. -/
theorem C9_capacity_no_deadlock_witness :
    ScanGo.spawnCount 40 ≤ ScanGo.chanCap 40 ∧
    Pool.oneSendingState.buffer.length < Pool.cfgOne.cap :=
  ⟨C9_capacity_no_deadlock.1 40,
   C9_capacity_no_deadlock.2.2.1 Pool.cfgOne Pool.oneSendingState (by decide)
     reach_oneSending 0 cand0 rUdp rfl⟩
